import Mathlib

/-! The gobot REST api (`api.go`): command dispatch and view serialization.

A shallow embedding of `api.go` of the gobot repository: the entity graph it reads
(`Master`, `Robot`, `device`, `connection`), the view serializer (`formatJsonRobot`,
`formatJsonDevice`, `formatJsonConnection`), the request handlers, the two command
invokers (`executeCommand`, `executeRobotCommand`) and the route table built by `Api`.

Conventions of the embedding

* A Go pointer that may be nil is an `Option`; using a nil pointer is the fault
  `Fault.nilDereference`. A handler that panics returns `Except.error`.
* A Go `map[string]interface{}` is a `GoMap`: either the nil map or a list of entries.
  Reading a nil map is allowed, assigning into it is the fault `Fault.nilMapAssignment`.
* Operations (driver methods, robot commands) may change the state of the hardware they
  drive. That state is an abstract type `σ` threaded through every invocation, so that
  "the operation was not run" is visible as "the state is the one we started from".
* `json.Marshal x` followed by `res.Write` is the response body `Body.json x` when the
  encoder accepts `x`: the model stops at the value handed to the encoder. When the
  encoder rejects `x`, the handlers drop its error and write no bytes: the body is empty.
* Go slices are lists; the difference between a nil and an empty slice is not tracked.
-/

namespace Gobot

/-! ## Generic values and maps -/

/-- A Go `float64`, as far as the encoder tells such values apart: a finite number,
here `mantissa * 2 ^ exponent`, or one of the values that have no JSON encoding. No
definition below computes with these numbers. -/
inductive Float64 where
  | finite (mantissa exponent : Int) : Float64
  | nan : Float64
  | inf (negative : Bool) : Float64

/-- Whether `json.Marshal` accepts a `float64`: it rejects NaN and the infinities. -/
def Float64.encodable : Float64 → Bool
  | .finite _ _ => true
  | .nan => false
  | .inf _ => false

/-- Generic values, the contents of a Go `interface{}`. The decoder builds `null`,
booleans, `float64` numbers, strings, arrays and objects. An operation may return any
Go value: besides those, integers, and values of a kind that has no JSON encoding at all
(a channel, a function, a complex number), kept as `unsupported` with the name of the
kind. -/
inductive JVal where
  | null : JVal
  | bool (b : Bool) : JVal
  | int (n : Int) : JVal
  | float (x : Float64) : JVal
  | str (s : String) : JVal
  | arr (xs : List JVal) : JVal
  | obj (kvs : List (String × JVal)) : JVal
  | unsupported (kind : String) : JVal

mutual
/-- Whether `json.Marshal` accepts a value: every part of it must have a JSON encoding. -/
def JVal.encodable : JVal → Bool
  | .null => true
  | .bool _ => true
  | .int _ => true
  | .float x => x.encodable
  | .str _ => true
  | .arr xs => encodableList xs
  | .obj kvs => encodableEntries kvs
  | .unsupported _ => false
/-- Whether `json.Marshal` accepts every value of a sequence. -/
def encodableList : List JVal → Bool
  | [] => true
  | x :: xs => x.encodable && encodableList xs
/-- Whether `json.Marshal` accepts every value of the entries of a map. -/
def encodableEntries : List (String × JVal) → Bool
  | [] => true
  | (_, v) :: kvs => v.encodable && encodableEntries kvs
end

/-- The ways a request can abort instead of writing a response. -/
inductive Fault where
  | nilDereference : Fault
  | nilMapAssignment : Fault
  | reflectCall : Fault
  | typeAssertion : Fault
  deriving DecidableEq, Repr

/-- Store `v` under key `k` in a list of entries: an existing entry for `k` is
overwritten in place, otherwise the entry is added at the end. -/
def setEntry : List (String × JVal) → String → JVal → List (String × JVal)
  | [], k, v => [(k, v)]
  | (k0, v0) :: rest, k, v =>
    if k0 = k then (k, v) :: rest else (k0, v0) :: setEntry rest k v

/-- The value stored under `k` in a list of entries, if any. -/
def getEntry : List (String × JVal) → String → Option JVal
  | [], _ => none
  | (k0, v0) :: rest, k => if k0 = k then some v0 else getEntry rest k

/-- A Go `map[string]interface{}`: the nil map, or an allocated map with its entries. -/
inductive GoMap where
  | nil : GoMap
  | mk (entries : List (String × JVal)) : GoMap

namespace GoMap

/-- The entries of a map; the nil map has none. -/
def entries : GoMap → List (String × JVal)
  | nil => []
  | mk es => es

/-- The Go expression `m[k]` read with the comma-ok form: reading the nil map finds nothing. -/
def index (m : GoMap) (k : String) : Option JVal :=
  getEntry m.entries k

/-- The Go statement `m[k] = v`: it panics on the nil map. -/
def assign : GoMap → String → JVal → Except Fault GoMap
  | nil, _, _ => .error .nilMapAssignment
  | mk es, k, v => .ok (mk (setEntry es k v))

end GoMap

/-! ## The `encoding/json` decoder, as far as `api.go` uses it -/

/-- What the bytes of a request body are, seen by `json.Unmarshal` with a map target. -/
inductive Decoded where
  | object (kvs : List (String × JVal)) : Decoded
  | null : Decoded
  | mismatch : Decoded
  | malformed : Decoded

/-- The JSON reader of `encoding/json`, a library outside the repository: `parse`
classifies the bytes as a JSON object (with its members in textual order), the literal
`null`, another well-formed JSON value (`mismatch`), or not JSON at all (`malformed`,
which includes the empty input). -/
structure JsonCodec where
  parse : String → Decoded

/-- The call `json.Unmarshal(data, &target)` for a `map[string]interface{}` target, with
the error result dropped as every caller in `api.go` does. An object is stored member by
member into the target, which is allocated first if it was nil and keeps the entries it
had otherwise. The literal `null` is no error: in the words of the package, "the JSON
null value unmarshals into an interface, map, pointer, or slice by setting that Go value
to nil". On an error (input that is not JSON, or a JSON value that is no object) the
target is left as it was. -/
def Unmarshal (J : JsonCodec) (data : String) (target : GoMap) : GoMap :=
  match J.parse data with
  | .object kvs => GoMap.mk (kvs.foldl (fun acc kv => setEntry acc kv.1 kv.2) target.entries)
  | .null => GoMap.nil
  | .mismatch => target
  | .malformed => target

/-! ## The entity graph -/

/-- The Go type `Command func(params map[string]interface{}) []interface{}`; driver
methods reached through reflection have the same shape. An operation may panic. -/
abbrev Command (σ : Type) : Type := GoMap → σ → Except Fault (List JVal × σ)

/-- Modelled from the spec: the `connection` struct is declared outside the given
sources; a Connection "carries an address/port and an Adaptor implementation". The
fields are the ones `formatJsonConnection` reads (`Type_` is the Go field `Type`). -/
structure connection where
  Name : String
  Port : String
  Type_ : String

/-- Modelled from the spec: the adaptor types are declared outside the given sources; an
Adaptor "exposes at minimum an identifying name used to resolve which connection a driver
depends on". This is the value behind a driver's `Adaptor` field, of which `api.go` reads
`Name`. -/
structure Adaptor where
  Name : String

/-- Modelled from the spec: the driver types are declared outside the given sources; a
Driver "exposes (a) a list of supported command names, and (b) one callable operation per
supported name". This is a driver as `api.go` sees it through reflection: the fields
`Adaptor` and `Commands`, and `methods`, its method set as `MethodByName` of the package
`reflect` finds it: only exported methods, whose names begin with an upper-case letter,
are in it. -/
structure Driver (σ : Type) where
  Adaptor : Gobot.Adaptor
  Commands : List String
  methods : String → Option (Command σ)

/-- The back pointer `device.Robot`, of which `api.go` reads `Name`. -/
structure RobotRef where
  Name : String

/-- Modelled from the spec: the `device` struct is declared outside the given sources;
a Device is "identified by a name unique within its owning Robot" and "holds a reference
to exactly one Driver". The fields are the ones `api.go` reads (`Type_` is the Go field
`Type`). -/
structure device (σ : Type) where
  Name : String
  Type_ : String
  Robot : RobotRef
  Driver : Gobot.Driver σ

/-- Modelled from the spec: the `Robot` struct is declared outside the given sources; a
Robot "owns zero or more Devices, zero or more Connections, and a mapping of robot-level
command name → operation". The fields are the ones `api.go` reads. -/
structure Robot (σ : Type) where
  Name : String
  RobotCommands : List String
  Commands : List (String × Command σ)
  devices : List (device σ)
  connections : List connection

/-- Modelled from the spec: the `Master` struct is declared outside the given sources;
it is the "process-wide registry of Robots", kept in attach order. -/
structure Master (σ : Type) where
  Robots : List (Robot σ)

/-- Modelled from the spec: `Master.FindRobot` is not among the given sources;
`findRobot(name) -> Robot or NotFound`, "by exact name match". The missing robot is
the nil pointer. -/
def Master.FindRobot {σ : Type} (m : Master σ) (name : String) : Option (Robot σ) :=
  m.Robots.find? (fun r => decide (r.Name = name))

/-- Modelled from the spec: `Robot.GetDevices` is not among the given sources; it hands
out the devices the robot owns. Called on the missing robot it is a use of the
"missing-value result without checking". -/
def Robot.GetDevices {σ : Type} : Option (Robot σ) → Except Fault (List (device σ))
  | none => .error .nilDereference
  | some r => .ok r.devices

/-- Modelled from the spec: `Robot.GetDevice` is not among the given sources;
`Robot.getDevice(name) -> Device or NotFound`, "by exact name match". Called on the
missing robot it is a use of the "missing-value result without checking". -/
def Robot.GetDevice {σ : Type} : Option (Robot σ) → String → Except Fault (Option (device σ))
  | none, _ => .error .nilDereference
  | some r, name => .ok (r.devices.find? (fun d => decide (d.Name = name)))

/-- Modelled from the spec: `Robot.GetConnections` is not among the given sources; it
hands out the connections the robot owns. -/
def Robot.GetConnections {σ : Type} : Option (Robot σ) → Except Fault (List connection)
  | none => .error .nilDereference
  | some r => .ok r.connections

/-- Modelled from the spec: `Robot.GetConnection` is not among the given sources;
`Robot.getConnection(name) -> Connection or NotFound`, "by exact name match". -/
def Robot.GetConnection {σ : Type} : Option (Robot σ) → String → Except Fault (Option connection)
  | none, _ => .error .nilDereference
  | some r, name => .ok (r.connections.find? (fun c => decide (c.Name = name)))

/-- Modelled from the spec: `device.Commands` is not among the given sources; a Driver
"exposes a list of supported command names", the slice `formatJsonDevice` reads from the
driver's `Commands` field. -/
def device.Commands {σ : Type} : Option (device σ) → Except Fault (List String)
  | none => .error .nilDereference
  | some d => .ok d.Driver.Commands

/-- Modelled from the spec: `Call` is not among the given sources; it is the
"reflective invocation that aborts the process on mismatch": the method named `method`
of `thing` is run on `params`, and its return values come back in return order. A name
under which reflection finds no method aborts the call. -/
def Call {σ : Type} (thing : Driver σ) (method : String) (params : GoMap) (s : σ) :
    Except Fault (List JVal × σ) :=
  match thing.methods method with
  | none => .error .reflectCall
  | some f => f params s

/-- The Go expression `robot.Commands[commandname]`: the first entry under that name. -/
def lookupCommand {σ : Type} : List (String × Command σ) → String → Option (Command σ)
  | [], _ => none
  | (k, c) :: rest, name => if k = name then some c else lookupCommand rest name

/-! ## Views and responses -/

/-- Modelled from the spec: the `jsonConnection` struct is declared outside the given
sources; a Connection is projected into `{name, port, adaptorType}`, the fields
`formatJsonConnection` fills. -/
structure jsonConnection where
  Name : String
  Port : String
  Adaptor : String
  deriving DecidableEq, Repr

/-- Modelled from the spec: the `jsonDevice` struct is declared outside the given
sources; a Device is projected into `{name, driverType, connection, commands}`, the fields
`formatJsonDevice` fills. -/
structure jsonDevice where
  Name : String
  Driver : String
  Connection : jsonConnection
  Commands : List String
  deriving DecidableEq, Repr

/-- Modelled from the spec: the `jsonRobot` struct is declared outside the given
sources; a Robot is projected into `{name, commands, devices, connections}`, the fields
`formatJsonRobot` fills. -/
structure jsonRobot where
  Name : String
  Commands : List String
  Connections : List jsonConnection
  Devices : List jsonDevice
  deriving DecidableEq, Repr

/-- The value a handler hands to `json.Marshal`. -/
inductive Encoded where
  | robots (vs : List jsonRobot) : Encoded
  | robot (v : jsonRobot) : Encoded
  | devices (vs : List jsonDevice) : Encoded
  | device (v : jsonDevice) : Encoded
  | connections (vs : List jsonConnection) : Encoded
  | connection (v : jsonConnection) : Encoded
  | names (xs : List String) : Encoded
  | values (vs : List JVal) : Encoded

/-- Whether `json.Marshal` accepts what a handler hands to it. The views hold strings
only and are always accepted; a sequence of generic values is accepted when each value
is. -/
def Encoded.encodable : Encoded → Bool
  | .values vs => encodableList vs
  | _ => true

/-- A response body: bytes written as they are, or the JSON encoding of a value. -/
inductive Body where
  | raw (s : String) : Body
  | json (v : Encoded) : Body

/-- What a handler leaves on the `http.ResponseWriter`. -/
structure Response where
  status : Nat
  contentType : String
  body : Body

/-- An incoming request, of which the handlers read the body. -/
structure Request where
  Body : String

/-- The three lines every handler of `api.go` ends with: `data, _ := json.Marshal(v)`,
set the content type, `res.Write(data)`. Nothing sets a status, so the status is 200.
The error of `json.Marshal` is dropped: when the encoder rejects `v`, `data` is nil and
the body written is empty. -/
def writeJson (v : Encoded) : Response :=
  { status := 200, contentType := "application/json; charset=utf-8",
    body := if v.encodable then Body.json v else Body.raw "" }

/-- The library call `http.Error(res, msg, code)`. -/
def httpError (msg : String) (code : Nat) : Response :=
  { status := code, contentType := "text/plain; charset=utf-8", body := Body.raw (msg ++ "\n") }

/-- The sequence both invokers answer with when the command name does not resolve. -/
def unknownCommand : List JVal := [JVal.str "Unknown Command"]

/-- The `api` struct: the master the handlers read and the configuration of the server.
The fields `server` and `startFunc`, which belong to the transport, are left out; a
configuration field that is not set holds the empty string. -/
structure api (σ : Type) where
  master : Master σ
  Host : String := ""
  Port : String := ""
  Username : String := ""
  Password : String := ""
  Cert : String := ""
  Key : String := ""

namespace api

variable {σ : Type}

/-! ## The view serializer -/

/-- The method `formatJsonConnection`. -/
def formatJsonConnection (_a : api σ) : Option connection → Except Fault jsonConnection
  | none => .error .nilDereference
  | some c => .ok { Name := c.Name, Port := c.Port, Adaptor := c.Type_ }

/-- The method `formatJsonDevice`: the connection is found by the name of the driver's
adaptor among the connections of the robot the master knows under the device's robot
name. -/
def formatJsonDevice (a : api σ) : Option (device σ) → Except Fault jsonDevice
  | none => .error .nilDereference
  | some d => do
    let c ← Robot.GetConnection (a.master.FindRobot d.Robot.Name) d.Driver.Adaptor.Name
    let jc ← a.formatJsonConnection c
    pure { Name := d.Name, Driver := d.Type_, Connection := jc, Commands := d.Driver.Commands }

/-- One turn of the loop of `formatJsonRobot`. -/
def formatJsonRobot.step (a : api σ) (jr : jsonRobot) (d : device σ) : Except Fault jsonRobot := do
  let jd ← a.formatJsonDevice (some d)
  pure { jr with Connections := jr.Connections ++ [jd.Connection], Devices := jr.Devices ++ [jd] }

/-- The method `formatJsonRobot`. -/
def formatJsonRobot (a : api σ) : Option (Robot σ) → Except Fault jsonRobot
  | none => .error .nilDereference
  | some robot =>
    robot.devices.foldlM (formatJsonRobot.step a)
      { Name := robot.Name, Commands := robot.RobotCommands, Connections := [], Devices := [] }

/-! ## The read-only handlers -/

/-- The handler `robots`. -/
def robots (me : api σ) : Except Fault Response := do
  let jsonRobots ← me.master.Robots.foldlM
    (fun (acc : List jsonRobot) robot => do
      let jr ← me.formatJsonRobot (some robot)
      pure (acc ++ [jr])) []
  pure (writeJson (Encoded.robots jsonRobots))

/-- The handler `robot`. -/
def robot (me : api σ) (name : String) : Except Fault Response := do
  let jr ← me.formatJsonRobot (me.master.FindRobot name)
  pure (writeJson (Encoded.robot jr))

/-- The handler `robot_commands`. -/
def robot_commands (me : api σ) (name : String) : Except Fault Response :=
  match me.master.FindRobot name with
  | none => .error .nilDereference
  | some r => pure (writeJson (Encoded.names r.RobotCommands))

/-- The handler `robot_devices`. -/
def robot_devices (me : api σ) (name : String) : Except Fault Response := do
  let devices ← Robot.GetDevices (me.master.FindRobot name)
  let jsonDevices ← devices.foldlM
    (fun (acc : List jsonDevice) d => do
      let jd ← me.formatJsonDevice (some d)
      pure (acc ++ [jd])) []
  pure (writeJson (Encoded.devices jsonDevices))

/-- The handler `robot_device`. -/
def robot_device (me : api σ) (robot : String) (device : String) : Except Fault Response := do
  let d ← Robot.GetDevice (me.master.FindRobot robot) device
  let jd ← me.formatJsonDevice d
  pure (writeJson (Encoded.device jd))

/-- The handler `robot_device_commands`. -/
def robot_device_commands (me : api σ) (robot : String) (device : String) :
    Except Fault Response := do
  let d ← Robot.GetDevice (me.master.FindRobot robot) device
  let names ← Gobot.device.Commands d
  pure (writeJson (Encoded.names names))

/-- The handler `robot_connections`. -/
def robot_connections (me : api σ) (name : String) : Except Fault Response := do
  let connections ← Robot.GetConnections (me.master.FindRobot name)
  let jsonConnections ← connections.foldlM
    (fun (acc : List jsonConnection) c => do
      let jc ← me.formatJsonConnection (some c)
      pure (acc ++ [jc])) []
  pure (writeJson (Encoded.connections jsonConnections))

/-- The handler `robot_connection`. -/
def robot_connection (me : api σ) (robot : String) (connection : String) :
    Except Fault Response := do
  let c ← Robot.GetConnection (me.master.FindRobot robot) connection
  let jc ← me.formatJsonConnection c
  pure (writeJson (Encoded.connection jc))

/-! ## The invokers -/

/-- The inner loop of `executeCommand`: the return values of `Call` are appended one by
one to `ret`, which starts empty. -/
def executeCommand.collect (vals : List JVal) : List JVal :=
  vals.foldl (fun ret v => ret ++ [v]) []

/-- The outer loop of `executeCommand` over the command names of the device: at the first
name equal to `commandname` the driver is called and the handler returns; `none` means
the loop ran to its end. -/
def executeCommand.loop (driver : Driver σ) (commandname : String) (body : GoMap) (s : σ) :
    List String → Option (Except Fault (Response × σ))
  | [] => none
  | c :: rest =>
    if c = commandname then
      some (do
        let (vals, s2) ← Call driver commandname body s
        pure (writeJson (Encoded.values (executeCommand.collect vals)), s2))
    else executeCommand.loop driver commandname body s rest

/-- The method `executeCommand`. The body is decoded into a map variable that starts
nil. -/
def executeCommand (a : api σ) (J : JsonCodec) (robotname devicename commandname : String)
    (req : Request) (s : σ) : Except Fault (Response × σ) := do
  let body := Unmarshal J req.Body GoMap.nil
  let robot ← Robot.GetDevice (a.master.FindRobot robotname) devicename
  let commands ← device.Commands robot
  match robot with
  | none => .error .nilDereference
  | some d =>
    match executeCommand.loop d.Driver commandname body s commands with
    | some r => r
    | none => pure (writeJson (Encoded.values unknownCommand), s)

/-- The method `executeRobotCommand`. The body is decoded into a map made empty
beforehand, the robot name is stored in it, and only then is the robot looked at. -/
def executeRobotCommand (a : api σ) (J : JsonCodec) (robotname commandname : String)
    (req : Request) (s : σ) : Except Fault (Response × σ) := do
  let body := Unmarshal J req.Body (GoMap.mk [])
  let robot := a.master.FindRobot robotname
  let body ← body.assign "robotname" (JVal.str robotname)
  match robot with
  | none => .error .nilDereference
  | some r =>
    match lookupCommand r.Commands commandname with
    | some command => do
      let (vals, s2) ← command body s
      pure (writeJson (Encoded.values vals), s2)
    | none => pure (writeJson (Encoded.values unknownCommand), s)

end api

/-! ## The route table -/

/-- The request methods `Api` registers routes for. -/
inductive Method where
  | GET : Method
  | POST : Method
  deriving DecidableEq, Repr

/-- The path patterns `Api` registers, with their parameters filled in. -/
inductive Path where
  | robots : Path
  | robot (robotname : String) : Path
  | robot_commands (robotname : String) : Path
  | robot_command (robotname command : String) : Path
  | robot_devices (robotname : String) : Path
  | robot_device (robotname devicename : String) : Path
  | robot_device_commands (robotname devicename : String) : Path
  | command (robotname devicename command : String) : Path
  | robot_connections (robotname : String) : Path
  | robot_connection (robotname connectionname : String) : Path

/-- A route handler: it reads the request, may run operations on the state, and
either writes a response or aborts. -/
abbrev Handler (σ : Type) : Type := Request → σ → Except Fault (Response × σ)

/-- The method `Robot.GetCommand` the GET route for robot commands calls. Neither the
given sources nor the spec define it, so it is an input of `Api`: given the robot that
was found (or not) and a name, it yields a handler, yields nothing, or aborts. -/
abbrev GetCommandFn (σ : Type) : Type :=
  Option (Robot σ) → String → Except Fault (Option (Handler σ))

/-- A handler that only reads the graph leaves the state alone. -/
def readOnly {σ : Type} (r : Except Fault Response) : Handler σ :=
  fun _ s => r.map (fun resp => (resp, s))

/-- The function `Api`: the routes it registers on the server, by method and path.
`none` means that no route is registered. -/
def Api {σ : Type} (J : JsonCodec) (GetCommand : GetCommandFn σ) (bot : Master σ) :
    Method → Path → Option (Handler σ)
  | .GET, .robots => some (readOnly (api.robots { master := bot }))
  | .GET, .robot n => some (readOnly (api.robot { master := bot } n))
  | .GET, .robot_commands n => some (readOnly (api.robot_commands { master := bot } n))
  | .GET, .robot_command n c => some (fun req s => do
      let found ← GetCommand (Master.FindRobot bot n) c
      match found with
      | some h => h req s
      | none => pure (httpError "Not Found" 404, s))
  | .POST, .robot_command n c => some (api.executeRobotCommand { master := bot } J n c)
  | .GET, .robot_devices n => some (readOnly (api.robot_devices { master := bot } n))
  | .GET, .robot_device n d => some (readOnly (api.robot_device { master := bot } n d))
  | .GET, .robot_device_commands n d => some (readOnly (api.robot_device_commands { master := bot } n d))
  | .GET, .command n d c => some (api.executeCommand { master := bot } J n d c)
  | .POST, .command n d c => some (api.executeCommand { master := bot } J n d c)
  | .GET, .robot_connections n => some (readOnly (api.robot_connections { master := bot } n))
  | .GET, .robot_connection n c => some (readOnly (api.robot_connection { master := bot } n c))
  | _, _ => none

/-- What the route table does with a request: the handler registered for the method and
the path, run on the request and the state; `none` when no route is registered. -/
def serve {σ : Type} (J : JsonCodec) (GetCommand : GetCommandFn σ) (bot : Master σ)
    (method : Method) (path : Path) (req : Request) (s : σ) :
    Option (Except Fault (Response × σ)) :=
  (Api J GetCommand bot method path).map (fun h => h req s)

/-! ## The invariants of the data model -/

/-- The invariants the spec's data model asks of the graph: robot names are unique in
the master, and every device of an attached robot points back at that robot and has a
driver whose adaptor is named like one of the robot's connections. -/
def Master.WellFormed {σ : Type} (m : Master σ) : Prop :=
  (m.Robots.map (fun r => r.Name)).Nodup ∧
  ∀ r ∈ m.Robots, ∀ d ∈ r.devices,
    d.Robot.Name = r.Name ∧ ∃ c ∈ r.connections, c.Name = d.Driver.Adaptor.Name

/-! ## Sample data -/

/-- A reader that knows the few request bodies used in the examples below; any other
input counts as not being JSON. -/
def sampleJson : JsonCodec where
  parse := fun data =>
    if data = "\x7b\"name\":\"bob\"\x7d" then Decoded.object [("name", JVal.str "bob")]
    else if data = "\x7b\x7d" then Decoded.object []
    else if data = "null" then Decoded.null
    else if data = "[1]" then Decoded.mismatch
    else Decoded.malformed

/-- Modelled from the spec: the function `Hello` of `examples/hello_api.go` reads the
parameter `name`, which must be a string, and builds the text `hi` followed by that
name; as given it returns that text from a function declared to return a sequence, which
does not compile, and the example registers it under no name. The spec's example has
the command `greet` return `["hi bob"]` when invoked with the name `bob`: here the text
built is the only element of the sequence returned. -/
def Hello {σ : Type} : Command σ := fun params s =>
  match params.index "name" with
  | some (JVal.str name) => .ok ([JVal.str ("hi " ++ name)], s)
  | _ => .error .typeAssertion

/-- A robot-level command that needs no parameter: it notes in the state (a log of the
operations run so far) for which robot it ran, and answers `pong`. -/
def samplePing : Command (List String) := fun params log =>
  match params.index "robotname" with
  | some (JVal.str n) => .ok ([JVal.str "pong"], log ++ ["ping " ++ n])
  | _ => .ok ([JVal.str "pong"], log ++ ["ping"])

/-- A driver on connection `conn1` that lists the commands `move` and `stop`. The one
method reflection finds on it is `Move`, which is not in the list; it notes its name in
the log. -/
def sampleDriver : Driver (List String) where
  Adaptor := { Name := "conn1" }
  Commands := ["move", "stop"]
  methods := fun n =>
    if n = "Move" then some (fun _ log => .ok ([JVal.int 2], log ++ ["Move"]))
    else none

/-- A driver on connection `conn1` with two listed commands, both exported methods:
`Read` returns a number and a string, `Volts` returns a `float64` that is not a number.
Every method notes its name in the log. -/
def sampleGaugeDriver : Driver (List String) where
  Adaptor := { Name := "conn1" }
  Commands := ["Read", "Volts"]
  methods := fun n =>
    if n = "Read" then
      some (fun _ log => .ok ([JVal.int 7, JVal.str "steady"], log ++ ["Read"]))
    else if n = "Volts" then
      some (fun _ log => .ok ([JVal.float Float64.nan], log ++ ["Volts"]))
    else none

/-- A robot-level command that returns a `float64` that is not a number, and notes its
name in the log. -/
def sampleHeading : Command (List String) := fun _ log =>
  .ok ([JVal.float Float64.nan], log ++ ["heading"])

/-- The connection the sample driver depends on. -/
def sampleConn1 : connection := { Name := "conn1", Port := "/dev/ttyACM0", Type_ := "FirmataAdaptor" }

/-- A second connection, which no device uses. -/
def sampleConn2 : connection := { Name := "conn2", Port := "127.0.0.1:6000", Type_ := "SpheroAdaptor" }

/-- A device of the robot `rover`. -/
def sampleLed : device (List String) :=
  { Name := "led", Type_ := "LedDriver", Robot := { Name := "rover" }, Driver := sampleDriver }

/-- Another device of the robot `rover`, on the same connection. -/
def sampleButton : device (List String) :=
  { Name := "button", Type_ := "ButtonDriver", Robot := { Name := "rover" }, Driver := sampleDriver }

/-- The robot of the spec's example: no devices, no connections, one command `greet`. -/
def hellobot : Robot (List String) :=
  { Name := "hellobot", RobotCommands := ["greet"], Commands := [("greet", Hello)],
    devices := [], connections := [] }

/-- A robot with two devices sharing one of its two connections. -/
def rover : Robot (List String) :=
  { Name := "rover", RobotCommands := ["ping"], Commands := [("ping", samplePing)],
    devices := [sampleLed, sampleButton], connections := [sampleConn1, sampleConn2] }

/-- The device of the robot `bench`. -/
def sampleGauge : device (List String) :=
  { Name := "gauge", Type_ := "AnalogSensorDriver", Robot := { Name := "bench" },
    Driver := sampleGaugeDriver }

/-- A robot with one device and one command, both able to return a value that has no
JSON encoding. -/
def bench : Robot (List String) :=
  { Name := "bench", RobotCommands := ["heading"], Commands := [("heading", sampleHeading)],
    devices := [sampleGauge], connections := [sampleConn1] }

/-- A master with the robot `bench` alone. -/
def benchMaster : Master (List String) := { Robots := [bench] }

/-- The api of the master of `bench`. -/
def benchApi : api (List String) := { master := benchMaster }

/-- A master with the two sample robots, attached in this order. -/
def sampleMaster : Master (List String) := { Robots := [hellobot, rover] }

/-- The api of the sample master. -/
def sampleApi : api (List String) := { master := sampleMaster }

/-- A `GetCommand` for which no robot has a handler under any name. -/
def noHandlers : GetCommandFn (List String) := fun _ _ => .ok none

/-! ## Auxiliary facts about lookups and the accumulating loops -/

section Auxiliary

variable {σ : Type}

/-- In a list whose members have pairwise different names, looking a member up by its
own name finds that member. -/
theorem find?_name_of_mem {α : Type} (f : α → String) :
    ∀ (l : List α) (x : α), x ∈ l → (l.map f).Nodup →
      l.find? (fun y => decide (f y = f x)) = some x := by
  intro l
  induction l with
  | nil => intro x hx; simp at hx
  | cons y ys ih =>
    intro x hx hnd
    rw [List.map_cons, List.nodup_cons] at hnd
    rcases List.mem_cons.mp hx with hxy | hxy
    · subst hxy
      simp [List.find?]
    · have hne : f y ≠ f x := by
        intro heq
        exact hnd.1 (heq ▸ List.mem_map_of_mem f hxy)
      simp [List.find?, hne, ih x hxy hnd.2]

/-- A loop that appends one converted element per turn returns exactly when every
conversion returns, and then it has appended the converted elements in order. -/
theorem foldlM_append_ok {α β : Type} (f : α → Except Fault β) :
    ∀ (xs : List α) (acc out : List β),
      xs.foldlM (fun (acc : List β) x => do
          let y ← f x
          pure (acc ++ [y])) acc = .ok out ↔
        ∃ ys, List.Forall₂ (fun x y => f x = .ok y) xs ys ∧ out = acc ++ ys := by
  intro xs
  induction xs with
  | nil =>
    intro acc out
    simp only [List.foldlM_nil, List.forall₂_nil_left_iff]
    constructor
    · intro h
      cases h
      exact ⟨[], rfl, by simp⟩
    · rintro ⟨ys, rfl, rfl⟩
      simp [pure, Except.pure]
  | cons x xs ih =>
    intro acc out
    rw [List.foldlM_cons]
    cases hx : f x with
    | error e =>
      simp only [bind, Except.bind]
      constructor
      · intro h; cases h
      · rintro ⟨ys, hys, -⟩
        cases hys with
        | cons h1 _ => rw [hx] at h1; cases h1
    | ok y =>
      have ih2 := ih (acc ++ [y]) out
      simp only [bind, Except.bind, pure, Except.pure] at ih2 ⊢
      rw [ih2]
      constructor
      · rintro ⟨ys, hys, rfl⟩
        exact ⟨y :: ys, List.Forall₂.cons hx hys, by simp⟩
      · rintro ⟨ys, hys, rfl⟩
        cases hys with
        | cons h1 h2 =>
          rw [hx] at h1
          cases h1
          exact ⟨_, h2, by simp⟩

/-- The loop of `formatJsonRobot` returns exactly when `formatJsonDevice` returns for
every device, and then both lists of the view have grown by one entry per device. -/
theorem formatJsonRobot_loop_ok (a : api σ) :
    ∀ (ds : List (device σ)) (jr out : jsonRobot),
      ds.foldlM (api.formatJsonRobot.step a) jr = .ok out ↔
        ∃ jds, List.Forall₂ (fun d jd => a.formatJsonDevice (some d) = .ok jd) ds jds ∧
          out = { jr with Connections := jr.Connections ++ jds.map (fun jd => jd.Connection),
                          Devices := jr.Devices ++ jds } := by
  intro ds
  induction ds with
  | nil =>
    intro jr out
    simp only [List.foldlM_nil, List.forall₂_nil_left_iff]
    constructor
    · intro h
      cases h
      exact ⟨[], rfl, by simp⟩
    · rintro ⟨jds, rfl, rfl⟩
      simp [pure, Except.pure]
  | cons d ds ih =>
    intro jr out
    rw [List.foldlM_cons]
    cases hd : a.formatJsonDevice (some d) with
    | error e =>
      simp only [api.formatJsonRobot.step, hd, bind, Except.bind]
      constructor
      · intro h; cases h
      · rintro ⟨jds, hjds, -⟩
        cases hjds with
        | cons h1 _ => rw [hd] at h1; cases h1
    | ok jd =>
      simp only [api.formatJsonRobot.step, hd, bind, Except.bind, pure, Except.pure]
      rw [ih]
      constructor
      · rintro ⟨jds, hjds, rfl⟩
        exact ⟨jd :: jds, List.Forall₂.cons hd hjds, by simp⟩
      · rintro ⟨jds, hjds, rfl⟩
        cases hjds with
        | cons h1 h2 =>
          rw [hd] at h1
          cases h1
          exact ⟨_, h2, by simp⟩

/-- The view `formatJsonRobot` builds, in one piece: it exists exactly when every device
has a view, and then it lists those views and, beside them, their connections. -/
theorem formatJsonRobot_ok_iff (a : api σ) (robot : Robot σ) (v : jsonRobot) :
    a.formatJsonRobot (some robot) = .ok v ↔
      ∃ jds, List.Forall₂ (fun d jd => a.formatJsonDevice (some d) = .ok jd) robot.devices jds ∧
        v = { Name := robot.Name, Commands := robot.RobotCommands,
              Connections := jds.map (fun jd => jd.Connection), Devices := jds } := by
  simp only [api.formatJsonRobot]
  rw [formatJsonRobot_loop_ok]
  simp

/-- Storing a value under a key makes that key read back the value. -/
theorem getEntry_setEntry_same (k : String) (v : JVal) :
    ∀ es : List (String × JVal), getEntry (setEntry es k v) k = some v := by
  intro es
  induction es with
  | nil => simp [setEntry, getEntry]
  | cons e es ih =>
    obtain ⟨k0, v0⟩ := e
    by_cases h : k0 = k
    · simp [setEntry, getEntry, h]
    · simp [setEntry, getEntry, h, ih]

/-- Storing a value under a key leaves what every other key reads unchanged. -/
theorem getEntry_setEntry_other (k : String) (v : JVal) (k2 : String) (hk : k2 ≠ k) :
    ∀ es : List (String × JVal), getEntry (setEntry es k v) k2 = getEntry es k2 := by
  intro es
  induction es with
  | nil => simp [setEntry, getEntry, Ne.symm hk]
  | cons e es ih =>
    obtain ⟨k0, v0⟩ := e
    by_cases h : k0 = k
    · subst h
      simp [setEntry, getEntry, Ne.symm hk]
    · by_cases h2 : k0 = k2
      · subst h2
        simp [setEntry, getEntry, hk]
      · simp [setEntry, getEntry, h, h2, ih]

/-- The inner loop of `executeCommand` copies the return values as they are. -/
theorem executeCommand_collect_eq (vals : List JVal) :
    api.executeCommand.collect vals = vals := by
  have key : ∀ (xs acc : List JVal),
      xs.foldl (fun ret v => ret ++ [v]) acc = acc ++ xs := by
    intro xs
    induction xs with
    | nil => intro acc; simp
    | cons x xs ih => intro acc; simp [List.foldl_cons, ih]
  simpa [api.executeCommand.collect] using key vals []

/-- The outer loop of `executeCommand` reaches the call when the name is listed. -/
theorem executeCommand_loop_mem (driver : Driver σ) (commandname : String) (body : GoMap)
    (s : σ) :
    ∀ commands : List String, commandname ∈ commands →
      api.executeCommand.loop driver commandname body s commands =
        some (do
          let (vals, s2) ← Call driver commandname body s
          pure (writeJson (Encoded.values (api.executeCommand.collect vals)), s2)) := by
  intro commands
  induction commands with
  | nil => intro h; simp at h
  | cons c rest ih =>
    intro h
    by_cases hc : c = commandname
    · simp [api.executeCommand.loop, hc]
    · have hrest : commandname ∈ rest := by
        rcases List.mem_cons.mp h with h1 | h1
        · exact absurd h1.symm hc
        · exact h1
      simp [api.executeCommand.loop, hc, ih hrest]

/-- The outer loop of `executeCommand` runs to its end when the name is not listed. -/
theorem executeCommand_loop_not_mem (driver : Driver σ) (commandname : String) (body : GoMap)
    (s : σ) :
    ∀ commands : List String, commandname ∉ commands →
      api.executeCommand.loop driver commandname body s commands = none := by
  intro commands
  induction commands with
  | nil => intro _; rfl
  | cons c rest ih =>
    intro h
    have hc : c ≠ commandname := fun e => h (e ▸ List.mem_cons_self _ _)
    have hrest : commandname ∉ rest := fun e => h (List.mem_cons_of_mem _ e)
    simp [api.executeCommand.loop, hc, ih hrest]

/-- If every element has a converted form, the converted forms can be listed together. -/
theorem forall₂_of_forall_ok {α β : Type} (f : α → Except Fault β) :
    ∀ l : List α, (∀ x ∈ l, ∃ y, f x = .ok y) →
      ∃ ys, List.Forall₂ (fun x y => f x = .ok y) l ys := by
  intro l
  induction l with
  | nil => intro _; exact ⟨[], List.Forall₂.nil⟩
  | cons x xs ih =>
    intro h
    obtain ⟨y, hy⟩ := h x (List.mem_cons_self _ _)
    obtain ⟨ys, hys⟩ := ih (fun z hz => h z (List.mem_cons_of_mem _ hz))
    exact ⟨y :: ys, List.Forall₂.cons hy hys⟩

/-- In a well-formed graph every device of an attached robot has a view. -/
theorem formatJsonDevice_returns (a : api σ) (hwf : a.master.WellFormed) (r : Robot σ)
    (hr : r ∈ a.master.Robots) (d : device σ) (hd : d ∈ r.devices) :
    ∃ jd : jsonDevice, a.formatJsonDevice (some d) = .ok jd := by
  obtain ⟨hown, c, hc, hname⟩ := hwf.2 r hr d hd
  have hfind : a.master.FindRobot d.Robot.Name = some r := by
    rw [hown]
    exact find?_name_of_mem (fun x : Robot σ => x.Name) a.master.Robots r hr hwf.1
  have hsome : (r.connections.find?
      (fun x => decide (x.Name = d.Driver.Adaptor.Name))).isSome = true := by
    rw [List.find?_isSome]
    exact ⟨c, hc, by simpa using hname⟩
  obtain ⟨c2, hc2⟩ := Option.isSome_iff_exists.mp hsome
  refine ⟨{ Name := d.Name, Driver := d.Type_,
            Connection := { Name := c2.Name, Port := c2.Port, Adaptor := c2.Type_ },
            Commands := d.Driver.Commands }, ?_⟩
  simp only [api.formatJsonDevice, hfind, Robot.GetConnection, hc2, api.formatJsonConnection,
    bind, Except.bind]
  rfl

/-- In a well-formed graph every attached robot has a view. -/
theorem formatJsonRobot_returns (a : api σ) (hwf : a.master.WellFormed) (r : Robot σ)
    (hr : r ∈ a.master.Robots) :
    ∃ v : jsonRobot, a.formatJsonRobot (some r) = .ok v := by
  obtain ⟨jds, hjds⟩ := forall₂_of_forall_ok (fun d => a.formatJsonDevice (some d)) r.devices
    (fun d hd => formatJsonDevice_returns a hwf r hr d hd)
  exact ⟨_, (formatJsonRobot_ok_iff a r _).mpr ⟨jds, hjds, rfl⟩⟩

/-- In a command table whose names are pairwise different, the entry under a name is
what the lookup under that name finds. -/
theorem lookupCommand_of_mem :
    ∀ (l : List (String × Command σ)) (name : String) (c : Command σ),
      (name, c) ∈ l → (l.map (fun e => e.1)).Nodup → lookupCommand l name = some c := by
  intro l
  induction l with
  | nil => intro name c h; simp at h
  | cons e rest ih =>
    intro name c h hnd
    obtain ⟨k, c0⟩ := e
    rw [List.map_cons, List.nodup_cons] at hnd
    rcases List.mem_cons.mp h with h1 | h1
    · cases h1
      simp [lookupCommand]
    · have hne : k ≠ name := by
        intro heq
        apply hnd.1
        have hin : name ∈ rest.map (fun e => e.1) :=
          List.mem_map_of_mem (fun e : String × Command σ => e.1) h1
        rw [heq]
        exact hin
      simp [lookupCommand, hne, ih name c h1 hnd.2]

/-- A robot attached to a master whose robot names are pairwise different is the robot
its name resolves to. -/
theorem findRobot_of_mem (m : Master σ) (r : Robot σ) (hr : r ∈ m.Robots)
    (hrobots : (m.Robots.map (fun x => x.Name)).Nodup) :
    m.FindRobot r.Name = some r :=
  find?_name_of_mem (fun x : Robot σ => x.Name) m.Robots r hr hrobots

/-- A device of such a robot, device names being pairwise different in the robot, is the
device the two names resolve to. -/
theorem getDevice_of_mem (m : Master σ) (r : Robot σ) (d : device σ) (hr : r ∈ m.Robots)
    (hrobots : (m.Robots.map (fun x => x.Name)).Nodup) (hd : d ∈ r.devices)
    (hdevices : (r.devices.map (fun x => x.Name)).Nodup) :
    Robot.GetDevice (m.FindRobot r.Name) d.Name = .ok (some d) := by
  rw [findRobot_of_mem m r hr hrobots]
  simp only [Robot.GetDevice]
  rw [find?_name_of_mem (fun x : device σ => x.Name) r.devices d hd hdevices]

/-- The sample master is well formed. -/
theorem sampleMaster_wellFormed : sampleMaster.WellFormed := by
  refine ⟨by decide, ?_⟩
  intro r hr d hd
  simp only [sampleMaster, List.mem_cons, List.mem_singleton, List.not_mem_nil, or_false] at hr
  rcases hr with rfl | rfl
  · simp [hellobot] at hd
  · simp only [rover, List.mem_cons, List.mem_singleton, List.not_mem_nil, or_false] at hd
    rcases hd with rfl | rfl
    · exact ⟨rfl, sampleConn1, List.mem_cons_self _ _, rfl⟩
    · exact ⟨rfl, sampleConn1, List.mem_cons_self _ _, rfl⟩

end Auxiliary

/-! ## Facts about the two invokers used more than once -/

section Invokers

variable {σ : Type}

/-- Whatever `executeRobotCommand` writes, it writes with status 200. -/
theorem executeRobotCommand_status (a : api σ) (J : JsonCodec) (robotname commandname : String)
    (req : Request) (s s2 : σ) (resp : Response)
    (h : a.executeRobotCommand J robotname commandname req s = .ok (resp, s2)) :
    resp.status = 200 := by
  unfold api.executeRobotCommand at h
  cases hb : (Unmarshal J req.Body (GoMap.mk [])).assign "robotname" (JVal.str robotname) with
  | error e => simp [hb, bind, Except.bind] at h
  | ok body =>
    simp only [hb, bind, Except.bind] at h
    cases hr : a.master.FindRobot robotname with
    | none => simp [hr] at h
    | some r =>
      simp only [hr] at h
      cases hc : lookupCommand r.Commands commandname with
      | none =>
        simp only [hc, pure, Except.pure, Except.ok.injEq, Prod.mk.injEq] at h
        rw [← h.1]
        rfl
      | some command =>
        simp only [hc] at h
        cases hrun : command body s with
        | error e => simp [hrun] at h
        | ok out =>
          obtain ⟨vals, s3⟩ := out
          simp only [hrun, pure, Except.pure, Except.ok.injEq, Prod.mk.injEq] at h
          rw [← h.1]
          rfl

/-- When the body is the JSON literal `null`, `executeRobotCommand` aborts on storing the
robot name, whatever the robot and the command. -/
theorem executeRobotCommand_null (a : api σ) (J : JsonCodec) (robotname commandname : String)
    (req : Request) (s : σ) (hnull : J.parse req.Body = Decoded.null) :
    a.executeRobotCommand J robotname commandname req s = .error .nilMapAssignment := by
  simp [api.executeRobotCommand, Unmarshal, hnull, GoMap.assign, bind, Except.bind]

/-- When the body leaves the parameter map allocated with entries `m`, a name without an
entry in the robot's command table is answered with the sentinel, on the state as it was. -/
theorem executeRobotCommand_unknown (a : api σ) (J : JsonCodec) (robotname commandname : String)
    (req : Request) (s : σ) (r : Robot σ) (m : List (String × JVal))
    (hr : a.master.FindRobot robotname = some r)
    (hc : lookupCommand r.Commands commandname = none)
    (hm : Unmarshal J req.Body (GoMap.mk []) = GoMap.mk m) :
    a.executeRobotCommand J robotname commandname req s =
      .ok ({ status := 200, contentType := "application/json; charset=utf-8",
             body := Body.json (Encoded.values [JVal.str "Unknown Command"]) }, s) := by
  simp only [api.executeRobotCommand, hm, hr, hc, GoMap.assign, bind, Except.bind, pure,
    Except.pure, unknownCommand]
  rfl

end Invokers

/-! ## The robot-command route: GET against POST -/

section Claims

variable {σ : Type}

/-- C1, as stated, fails: on the sample master, where the robot `hellobot` has neither a
command nor a handler called `dance`, a GET to `/robots/hellobot/commands/dance` is
answered 404 `Not Found` and a POST to the same path is answered 200 with the sentinel
sequence, so the two methods do not behave identically. -/
theorem robot_command_get_differs_from_post :
    (Api sampleJson noHandlers sampleMaster Method.GET
        (Path.robot_command "hellobot" "dance")).map (fun h => h ⟨""⟩ []) =
      some (.ok (httpError "Not Found" 404, [])) ∧
    (Api sampleJson noHandlers sampleMaster Method.POST
        (Path.robot_command "hellobot" "dance")).map (fun h => h ⟨""⟩ []) =
      some (.ok (writeJson (Encoded.values [JVal.str "Unknown Command"]), [])) ∧
    (Api sampleJson noHandlers sampleMaster Method.GET
        (Path.robot_command "hellobot" "dance")).map (fun h => h ⟨""⟩ []) ≠
    (Api sampleJson noHandlers sampleMaster Method.POST
        (Path.robot_command "hellobot" "dance")).map (fun h => h ⟨""⟩ []) := by
  refine ⟨rfl, rfl, ?_⟩
  intro h
  have h2 : (httpError "Not Found" 404).status =
      (writeJson (Encoded.values [JVal.str "Unknown Command"])).status := by
    have h3 : (some (Except.ok (httpError "Not Found" 404, ([] : List String))) :
        Option (Except Fault (Response × List String))) =
        some (Except.ok (writeJson (Encoded.values [JVal.str "Unknown Command"]), [])) := h
    simp only [Option.some.injEq, Except.ok.injEq, Prod.mk.injEq] at h3
    rw [h3.1]
  simp [httpError, writeJson] at h2

/-- C1, amended: the POST route for `/robots/{robot}/commands/{name}` is
`executeRobotCommand`; the GET route is not: it asks `GetCommand` for a handler and hands
the request to the handler found, and when none is found it answers 404 `Not Found` and
leaves the state alone. Whatever `executeRobotCommand` writes has status 200, so where
`GetCommand` finds nothing the two methods answer differently. -/
theorem robot_command_routes (J : JsonCodec) (G : GetCommandFn σ) (bot : Master σ)
    (n c : String) (req : Request) (s : σ) :
    Api J G bot Method.POST (Path.robot_command n c) =
      some (api.executeRobotCommand { master := bot } J n c) ∧
    (∀ h : Handler σ, G (bot.FindRobot n) c = .ok (some h) →
      (Api J G bot Method.GET (Path.robot_command n c)).map (fun g => g req s) =
        some (h req s)) ∧
    (∀ (resp : Response) (s2 : σ),
      api.executeRobotCommand { master := bot } J n c req s = .ok (resp, s2) → resp.status = 200) ∧
    (G (bot.FindRobot n) c = .ok none →
      (Api J G bot Method.GET (Path.robot_command n c)).map (fun g => g req s) =
        some (.ok (httpError "Not Found" 404, s)) ∧
      (Api J G bot Method.GET (Path.robot_command n c)).map (fun g => g req s) ≠
        (Api J G bot Method.POST (Path.robot_command n c)).map (fun g => g req s)) := by
  refine ⟨rfl, ?_, ?_, ?_⟩
  · intro h hG
    simp [Api, hG, bind, Except.bind]
  · intro resp s2 h
    exact executeRobotCommand_status { master := bot } J n c req s s2 resp h
  · intro hG
    have hget : (Api J G bot Method.GET (Path.robot_command n c)).map (fun g => g req s) =
        some (.ok (httpError "Not Found" 404, s)) := by
      simp [Api, hG, bind, Except.bind, pure, Except.pure]
    refine ⟨hget, ?_⟩
    rw [hget]
    intro h
    have hpost : api.executeRobotCommand { master := bot } J n c req s =
        .ok (httpError "Not Found" 404, s) := by
      have h2 : some (Except.ok (httpError "Not Found" 404, s)) =
          some (api.executeRobotCommand { master := bot } J n c req s) := h
      simp only [Option.some.injEq] at h2
      exact h2.symm
    have hst := executeRobotCommand_status { master := bot } J n c req s s _ hpost
    simp [httpError] at hst

/-- Witness for C1 amended: the sample master, the robot `hellobot`, the name `dance`. -/
theorem robot_command_routes_witness :
    noHandlers (sampleMaster.FindRobot "hellobot") "dance" = .ok none ∧
    (Api sampleJson noHandlers sampleMaster Method.GET
        (Path.robot_command "hellobot" "dance")).map (fun g => g ⟨""⟩ []) ≠
      (Api sampleJson noHandlers sampleMaster Method.POST
        (Path.robot_command "hellobot" "dance")).map (fun g => g ⟨""⟩ []) :=
  ⟨rfl, ((robot_command_routes sampleJson noHandlers sampleMaster "hellobot" "dance"
    ⟨""⟩ []).2.2.2 rfl).2⟩

/-! ## Device commands -/

/-- C2: for a device the names resolve to, `executeCommand` reaches the driver call
exactly when the requested name is equal, character for character, to a name in the
device's command list; then its outcome is the outcome of that one call. Otherwise it
answers 200 with the JSON encoding of the one-element sequence `Unknown Command` and
hands back the state it was given, whatever methods the driver has. -/
theorem executeCommand_dispatch (a : api σ) (J : JsonCodec)
    (robotname devicename commandname : String) (req : Request) (s : σ) (d : device σ)
    (hd : Robot.GetDevice (a.master.FindRobot robotname) devicename = .ok (some d)) :
    ((api.executeCommand.loop d.Driver commandname (Unmarshal J req.Body GoMap.nil) s
        d.Driver.Commands).isSome = true ↔ commandname ∈ d.Driver.Commands) ∧
    (commandname ∈ d.Driver.Commands →
      a.executeCommand J robotname devicename commandname req s =
        (Call d.Driver commandname (Unmarshal J req.Body GoMap.nil) s).map
          (fun out => (writeJson (Encoded.values out.1), out.2))) ∧
    (commandname ∉ d.Driver.Commands →
      a.executeCommand J robotname devicename commandname req s =
        .ok ({ status := 200, contentType := "application/json; charset=utf-8",
               body := Body.json (Encoded.values [JVal.str "Unknown Command"]) }, s)) := by
  refine ⟨?_, ?_, ?_⟩
  · by_cases hmem : commandname ∈ d.Driver.Commands
    · simp [executeCommand_loop_mem d.Driver commandname _ s _ hmem, hmem]
    · simp [executeCommand_loop_not_mem d.Driver commandname _ s _ hmem, hmem]
  · intro hmem
    simp only [api.executeCommand, hd, device.Commands, bind, Except.bind,
      executeCommand_loop_mem d.Driver commandname _ s _ hmem]
    cases hcall : Call d.Driver commandname (Unmarshal J req.Body GoMap.nil) s with
    | error e => rfl
    | ok out =>
      obtain ⟨vals, s2⟩ := out
      simp [Except.map, pure, Except.pure, executeCommand_collect_eq]
  · intro hmem
    simp only [api.executeCommand, hd, device.Commands, bind, Except.bind,
      executeCommand_loop_not_mem d.Driver commandname _ s _ hmem]
    rfl

/-- Witness for C2: the sample device `led` lists `move` and `stop`; asked for `Move`,
which its driver does have as a method, `executeCommand` answers with the sentinel and
the log of operations stays empty. -/
theorem executeCommand_dispatch_witness :
    Robot.GetDevice (sampleApi.master.FindRobot "rover") "led" = .ok (some sampleLed) ∧
    "Move" ∉ sampleLed.Driver.Commands ∧
    sampleApi.executeCommand sampleJson "rover" "led" "Move" ⟨""⟩ [] =
      .ok ({ status := 200, contentType := "application/json; charset=utf-8",
             body := Body.json (Encoded.values [JVal.str "Unknown Command"]) }, []) :=
  ⟨rfl, by decide,
    (executeCommand_dispatch sampleApi sampleJson "rover" "led" "Move" ⟨""⟩ [] sampleLed
      rfl).2.2 (by decide)⟩

/-- C6, as stated, fails: the sample device `gauge` lists the command `Volts`, whose
operation returns one value, a `float64` that is not a number. The encoder rejects it,
the handler drops the error, and the response, with status 200, has an empty body: it is
not the JSON encoding of a one-element sequence. -/
theorem executeCommand_unencodable_values :
    "Volts" ∈ sampleGauge.Driver.Commands ∧
    Call sampleGauge.Driver "Volts" GoMap.nil [] = .ok ([JVal.float Float64.nan], ["Volts"]) ∧
    benchApi.executeCommand sampleJson "bench" "gauge" "Volts" ⟨""⟩ [] =
      .ok ({ status := 200, contentType := "application/json; charset=utf-8",
             body := Body.raw "" }, ["Volts"]) ∧
    ¬ ∃ (ret : List JVal) (s2 : List String),
      benchApi.executeCommand sampleJson "bench" "gauge" "Volts" ⟨""⟩ [] =
        .ok ({ status := 200, contentType := "application/json; charset=utf-8",
               body := Body.json (Encoded.values ret) }, s2) := by
  refine ⟨by decide, rfl, rfl, ?_⟩
  rintro ⟨ret, s2, h⟩
  have h2 : (Except.ok ({ status := 200, contentType := "application/json; charset=utf-8",
                          body := Body.raw "" }, ["Volts"]) :
        Except Fault (Response × List String)) =
      .ok ({ status := 200, contentType := "application/json; charset=utf-8",
             body := Body.json (Encoded.values ret) }, s2) := h
  simp at h2

/-- C6, amended: take a device of a robot attached to the master, robot names being
unique in the master and device names unique in the robot, and a command name in the
device's command list. If reflection finds no method under that name, the handler
aborts. If it finds the operation `f`, `executeCommand` runs `f` once on the decoded
body. If `f` aborts, so does the handler. If `f` returns the values `vals` and the
encoder accepts them, the response is status 200 with the JSON encoding of a sequence
that has as many elements as `vals` and the i-th value of `vals` at every index i. If
the encoder rejects them, the response is status 200 with an empty body. In both cases
the state is the one `f` left. -/
theorem executeCommand_returns_values (a : api σ) (J : JsonCodec)
    (commandname : String) (req : Request) (s : σ) (r : Robot σ) (d : device σ)
    (hr : r ∈ a.master.Robots)
    (hrobots : (a.master.Robots.map (fun x => x.Name)).Nodup)
    (hd : d ∈ r.devices)
    (hdevices : (r.devices.map (fun x => x.Name)).Nodup)
    (hmem : commandname ∈ d.Driver.Commands) :
    (d.Driver.methods commandname = none →
      a.executeCommand J r.Name d.Name commandname req s = .error .reflectCall) ∧
    (∀ f : Command σ, d.Driver.methods commandname = some f →
      (∀ e : Fault, f (Unmarshal J req.Body GoMap.nil) s = .error e →
        a.executeCommand J r.Name d.Name commandname req s = .error e) ∧
      (∀ (vals : List JVal) (s2 : σ),
        f (Unmarshal J req.Body GoMap.nil) s = .ok (vals, s2) →
        (encodableList vals = true →
          ∃ ret : List JVal,
            a.executeCommand J r.Name d.Name commandname req s =
              .ok ({ status := 200, contentType := "application/json; charset=utf-8",
                     body := Body.json (Encoded.values ret) }, s2) ∧
            ret.length = vals.length ∧
            ∀ (i : Nat) (h1 : i < ret.length) (h2 : i < vals.length),
              ret.get ⟨i, h1⟩ = vals.get ⟨i, h2⟩) ∧
        (encodableList vals = false →
          a.executeCommand J r.Name d.Name commandname req s =
            .ok ({ status := 200, contentType := "application/json; charset=utf-8",
                   body := Body.raw "" }, s2)))) := by
  have hget := getDevice_of_mem a.master r d hr hrobots hd hdevices
  refine ⟨?_, ?_⟩
  · intro hnone
    simp only [api.executeCommand, hget, device.Commands, bind, Except.bind,
      executeCommand_loop_mem d.Driver commandname _ s _ hmem, Call, hnone]
  · intro f hf
    have hexec : a.executeCommand J r.Name d.Name commandname req s =
        (f (Unmarshal J req.Body GoMap.nil) s).map
          (fun out => (writeJson (Encoded.values out.1), out.2)) := by
      simp only [api.executeCommand, hget, device.Commands, bind, Except.bind,
        executeCommand_loop_mem d.Driver commandname _ s _ hmem, Call, hf]
      cases hrun : f (Unmarshal J req.Body GoMap.nil) s with
      | error e => rfl
      | ok out =>
        obtain ⟨vals, s2⟩ := out
        simp [Except.map, pure, Except.pure, executeCommand_collect_eq]
    refine ⟨?_, ?_⟩
    · intro e he
      rw [hexec, he]
      rfl
    · intro vals s2 hrun
      refine ⟨?_, ?_⟩
      · intro henc
        refine ⟨vals, ?_, rfl, fun _ _ _ => rfl⟩
        rw [hexec, hrun]
        simp [Except.map, writeJson, Encoded.encodable, henc]
      · intro henc
        rw [hexec, hrun]
        simp [Except.map, writeJson, Encoded.encodable, henc]

/-- Witness for C6 amended: `Read` on the sample device `gauge` returns a number and a
string, and they come back in that order. -/
theorem executeCommand_returns_values_witness :
    ∃ ret : List JVal,
      benchApi.executeCommand sampleJson "bench" "gauge" "Read" ⟨"\x7b\x7d"⟩ [] =
        .ok ({ status := 200, contentType := "application/json; charset=utf-8",
               body := Body.json (Encoded.values ret) }, ["Read"]) ∧
      ret.length = [JVal.int 7, JVal.str "steady"].length ∧
      ∀ (i : Nat) (h1 : i < ret.length) (h2 : i < [JVal.int 7, JVal.str "steady"].length),
        ret.get ⟨i, h1⟩ = [JVal.int 7, JVal.str "steady"].get ⟨i, h2⟩ :=
  (((executeCommand_returns_values benchApi sampleJson "Read" ⟨"\x7b\x7d"⟩ [] bench sampleGauge
      (List.mem_cons_self _ _) (by decide) (List.mem_cons_self _ _) (by decide)
      (by decide)).2
      (fun _ log => .ok ([JVal.int 7, JVal.str "steady"], log ++ ["Read"])) rfl).2
      [JVal.int 7, JVal.str "steady"] ["Read"] rfl).1 rfl

/-! ## Robot commands -/

/-- C5, as stated, fails: the robot `bench` has the command `heading` in its command
table, and the operation returns one value, a `float64` that is not a number. The
encoder rejects it, the handler drops the error, and the response, with status 200, has
an empty body: it is not the JSON encoding of the sequence the operation returned. -/
theorem executeRobotCommand_unencodable_values :
    ("heading", sampleHeading) ∈ bench.Commands ∧
    sampleHeading (GoMap.mk [("robotname", JVal.str "bench")]) [] =
      .ok ([JVal.float Float64.nan], ["heading"]) ∧
    benchApi.executeRobotCommand sampleJson "bench" "heading" ⟨"\x7b\x7d"⟩ [] =
      .ok ({ status := 200, contentType := "application/json; charset=utf-8",
             body := Body.raw "" }, ["heading"]) ∧
    ¬ ∃ (vals : List JVal) (s2 : List String),
      benchApi.executeRobotCommand sampleJson "bench" "heading" ⟨"\x7b\x7d"⟩ [] =
        .ok ({ status := 200, contentType := "application/json; charset=utf-8",
               body := Body.json (Encoded.values vals) }, s2) := by
  refine ⟨List.mem_cons_self _ _, rfl, rfl, ?_⟩
  rintro ⟨vals, s2, h⟩
  have h2 : (Except.ok ({ status := 200, contentType := "application/json; charset=utf-8",
                          body := Body.raw "" }, ["heading"]) :
        Except Fault (Response × List String)) =
      .ok ({ status := 200, contentType := "application/json; charset=utf-8",
             body := Body.json (Encoded.values vals) }, s2) := h
  simp at h2

/-- C5, amended: take a robot attached to the master, robot names being unique in the
master, a command name whose entry in the robot's command table is the operation
`command`, and a body after which the parameter map is allocated with the entries `m`.
Then `executeRobotCommand` runs `command` once, on `m` with the key `robotname` set to
the robot's name: in that argument `robotname` reads the robot's name, also when the
client sent that key, and every other key reads what it read in `m`. If the operation
aborts, so does the handler. If it returns the sequence `vals` and the encoder accepts
it, the response is status 200 with the JSON encoding of `vals`. If the encoder rejects
it, the response is status 200 with an empty body. In both cases the state is the one
the operation left. -/
theorem executeRobotCommand_registered (a : api σ) (J : JsonCodec)
    (commandname : String) (req : Request) (s : σ) (r : Robot σ)
    (command : Command σ) (m : List (String × JVal))
    (hr : r ∈ a.master.Robots)
    (hrobots : (a.master.Robots.map (fun x => x.Name)).Nodup)
    (hc : (commandname, command) ∈ r.Commands)
    (hkeys : (r.Commands.map (fun e => e.1)).Nodup)
    (hm : Unmarshal J req.Body (GoMap.mk []) = GoMap.mk m) :
    (∀ e : Fault,
      command (GoMap.mk (setEntry m "robotname" (JVal.str r.Name))) s = .error e →
      a.executeRobotCommand J r.Name commandname req s = .error e) ∧
    (∀ (vals : List JVal) (s2 : σ),
      command (GoMap.mk (setEntry m "robotname" (JVal.str r.Name))) s = .ok (vals, s2) →
      (encodableList vals = true →
        a.executeRobotCommand J r.Name commandname req s =
          .ok ({ status := 200, contentType := "application/json; charset=utf-8",
                 body := Body.json (Encoded.values vals) }, s2)) ∧
      (encodableList vals = false →
        a.executeRobotCommand J r.Name commandname req s =
          .ok ({ status := 200, contentType := "application/json; charset=utf-8",
                 body := Body.raw "" }, s2))) ∧
    (GoMap.mk (setEntry m "robotname" (JVal.str r.Name))).index "robotname" =
      some (JVal.str r.Name) ∧
    ∀ k : String, k ≠ "robotname" →
      (GoMap.mk (setEntry m "robotname" (JVal.str r.Name))).index k = (GoMap.mk m).index k := by
  have hfind := findRobot_of_mem a.master r hr hrobots
  have hlook := lookupCommand_of_mem r.Commands commandname command hc hkeys
  have hexec : a.executeRobotCommand J r.Name commandname req s =
      (command (GoMap.mk (setEntry m "robotname" (JVal.str r.Name))) s).map
        (fun out => (writeJson (Encoded.values out.1), out.2)) := by
    simp only [api.executeRobotCommand, hm, hfind, hlook, GoMap.assign, bind, Except.bind]
    cases hrun : command (GoMap.mk (setEntry m "robotname" (JVal.str r.Name))) s with
    | error e => rfl
    | ok out =>
      obtain ⟨vals, s2⟩ := out
      rfl
  refine ⟨?_, ?_, ?_, ?_⟩
  · intro e he
    rw [hexec, he]
    rfl
  · intro vals s2 hrun
    refine ⟨?_, ?_⟩
    · intro henc
      rw [hexec, hrun]
      simp [Except.map, writeJson, Encoded.encodable, henc]
    · intro henc
      rw [hexec, hrun]
      simp [Except.map, writeJson, Encoded.encodable, henc]
  · exact getEntry_setEntry_same _ _ _
  · intro k hk
    exact getEntry_setEntry_other _ _ k hk _

/-- Witness for C5 amended: the robot `hellobot`, its command `greet` and the body
`{"name":"bob"}` give the response `["hi bob"]`. -/
theorem executeRobotCommand_registered_witness :
    sampleApi.executeRobotCommand sampleJson "hellobot" "greet"
        ⟨"\x7b\"name\":\"bob\"\x7d"⟩ [] =
      .ok ({ status := 200, contentType := "application/json; charset=utf-8",
             body := Body.json (Encoded.values [JVal.str "hi bob"]) }, []) :=
  ((executeRobotCommand_registered sampleApi sampleJson "greet"
      ⟨"\x7b\"name\":\"bob\"\x7d"⟩ [] hellobot Hello [("name", JVal.str "bob")]
      (List.mem_cons_self _ _) (by decide) (List.mem_cons_self _ _) (by decide)
      rfl).2.1 [JVal.str "hi bob"] [] rfl).1 rfl

/-- C3, at the input where the code departs from it: the robot `hellobot` has no
command `dance`, and a request for it whose body is the JSON literal `null` is not
answered with the sentinel: the handler aborts when it stores the robot name in the
parameter map, which the decoder has set to nil. With the body `{}` the same request is
answered with the sentinel. -/
theorem executeRobotCommand_unknown_null_body :
    sampleMaster.FindRobot "hellobot" = some hellobot ∧
    lookupCommand hellobot.Commands "dance" = none ∧
    sampleApi.executeRobotCommand sampleJson "hellobot" "dance" ⟨"null"⟩ [] =
      .error .nilMapAssignment ∧
    sampleApi.executeRobotCommand sampleJson "hellobot" "dance" ⟨"\x7b\x7d"⟩ [] =
      .ok (writeJson (Encoded.values [JVal.str "Unknown Command"]), []) :=
  ⟨rfl, rfl, rfl, rfl⟩

/-! ## Request bodies -/

/-- A body that is not JSON, or is JSON of another kind than an object or `null`, leaves
`executeRobotCommand` with the map it made beforehand: the request goes as it goes for
the body `{}`. -/
theorem executeRobotCommand_undecodable (a : api σ) (J : JsonCodec)
    (robotname commandname : String) (req req0 : Request) (s : σ)
    (hbad : J.parse req.Body = Decoded.malformed ∨ J.parse req.Body = Decoded.mismatch)
    (hempty : J.parse req0.Body = Decoded.object []) :
    a.executeRobotCommand J robotname commandname req s =
      a.executeRobotCommand J robotname commandname req0 s := by
  rcases hbad with h | h <;>
    simp [api.executeRobotCommand, Unmarshal, h, hempty, GoMap.entries]

/-- C9, at the input where the code departs from it: the command `ping` of the robot
`rover` answers `["pong"]` for the body `{}`, and so it does for a body that is not JSON
at all; for the body `null`, which does not decode to a JSON object either, the request
aborts instead, and the operation is not run. -/
theorem executeRobotCommand_null_body_aborts :
    sampleApi.executeRobotCommand sampleJson "rover" "ping" ⟨"\x7b\x7d"⟩ [] =
      .ok (writeJson (Encoded.values [JVal.str "pong"]), ["ping rover"]) ∧
    sampleApi.executeRobotCommand sampleJson "rover" "ping" ⟨"not json"⟩ [] =
      sampleApi.executeRobotCommand sampleJson "rover" "ping" ⟨"\x7b\x7d"⟩ [] ∧
    sampleJson.parse "null" = Decoded.null ∧
    sampleApi.executeRobotCommand sampleJson "rover" "ping" ⟨"null"⟩ [] =
      .error .nilMapAssignment :=
  ⟨rfl, rfl, rfl, rfl⟩

/-! ## Names that do not resolve -/

/-- C4, as stated, fails: the sample master has no robot `ghost`, and the show-robot
handler asked for it writes no response at all, with a not-found status or otherwise:
it goes on to read the name of the missing robot and aborts there. -/
theorem show_robot_missing_aborts :
    sampleMaster.FindRobot "ghost" = none ∧
    sampleApi.robot "ghost" = .error .nilDereference ∧
    (Api sampleJson noHandlers sampleMaster Method.GET (Path.robot "ghost")).map
      (fun h => h ⟨""⟩ []) = some (.error .nilDereference) ∧
    ¬ ∃ resp : Response, sampleApi.robot "ghost" = .ok resp := by
  refine ⟨rfl, rfl, rfl, ?_⟩
  rintro ⟨resp, h⟩
  have h2 : (Except.error Fault.nilDereference : Except Fault Response) = .ok resp := h
  cases h2

/-- The handler methods on names that do not resolve: each goes on to use the missing
robot, device or connection and aborts there. -/
theorem handlers_abort_on_missing (me : api σ) (J : JsonCodec)
    (robotname devicename connectionname commandname : String) (req : Request) (s : σ) :
    (me.master.FindRobot robotname = none →
      me.robot robotname = .error .nilDereference ∧
      me.robot_commands robotname = .error .nilDereference ∧
      me.robot_devices robotname = .error .nilDereference ∧
      me.robot_device robotname devicename = .error .nilDereference ∧
      me.robot_device_commands robotname devicename = .error .nilDereference ∧
      me.robot_connections robotname = .error .nilDereference ∧
      me.robot_connection robotname connectionname = .error .nilDereference ∧
      me.executeCommand J robotname devicename commandname req s = .error .nilDereference ∧
      ∃ f : Fault, me.executeRobotCommand J robotname commandname req s = .error f) ∧
    (Robot.GetDevice (me.master.FindRobot robotname) devicename = .ok none →
      me.robot_device robotname devicename = .error .nilDereference ∧
      me.robot_device_commands robotname devicename = .error .nilDereference ∧
      me.executeCommand J robotname devicename commandname req s = .error .nilDereference) ∧
    (Robot.GetConnection (me.master.FindRobot robotname) connectionname = .ok none →
      me.robot_connection robotname connectionname = .error .nilDereference) := by
  refine ⟨?_, ?_, ?_⟩
  · intro h
    refine ⟨?_, ?_, ?_, ?_, ?_, ?_, ?_, ?_, ?_⟩
    · simp [api.robot, h, api.formatJsonRobot, bind, Except.bind]
    · simp [api.robot_commands, h]
    · simp [api.robot_devices, h, Robot.GetDevices, bind, Except.bind]
    · simp [api.robot_device, h, Robot.GetDevice, bind, Except.bind]
    · simp [api.robot_device_commands, h, Robot.GetDevice, bind, Except.bind]
    · simp [api.robot_connections, h, Robot.GetConnections, bind, Except.bind]
    · simp [api.robot_connection, h, Robot.GetConnection, bind, Except.bind]
    · simp [api.executeCommand, h, Robot.GetDevice, bind, Except.bind]
    · cases hb : (Unmarshal J req.Body (GoMap.mk [])).assign "robotname" (JVal.str robotname) with
      | error e => exact ⟨e, by simp [api.executeRobotCommand, hb, bind, Except.bind]⟩
      | ok body =>
        exact ⟨.nilDereference, by simp [api.executeRobotCommand, hb, h, bind, Except.bind]⟩
  · intro h
    refine ⟨?_, ?_, ?_⟩
    · simp [api.robot_device, h, api.formatJsonDevice, bind, Except.bind]
    · simp [api.robot_device_commands, h, device.Commands, bind, Except.bind]
    · simp [api.executeCommand, h, device.Commands, bind, Except.bind]
  · intro h
    simp [api.robot_connection, h, api.formatJsonConnection, bind, Except.bind]

/-- C4, amended: no handler method of `api.go` checks whether a robot, device or
connection name resolved, and none of them answers with a not-found status. When the
robot name does not resolve, the methods `robot`, `robot_commands`, `robot_devices`,
`robot_device`, `robot_device_commands`, `robot_connections`, `robot_connection`,
`executeCommand` and `executeRobotCommand` go on to use the missing robot and abort
before they write anything, and so does every route that dispatches to them. When the
robot resolves and the device or the connection name does not, the methods and routes
for that device or connection abort in the same way. The one route left, GET on a robot
command, does not reach these methods: for a missing robot its answer is decided by
`GetCommand` on the missing robot alone, and it is 404 `Not Found` when `GetCommand`
yields no handler. -/
theorem missing_entity_aborts (me : api σ) (J : JsonCodec) (G : GetCommandFn σ)
    (robotname devicename connectionname commandname : String) (req : Request) (s : σ) :
    (me.master.FindRobot robotname = none →
      (me.robot robotname = .error .nilDereference ∧
       me.robot_commands robotname = .error .nilDereference ∧
       me.robot_devices robotname = .error .nilDereference ∧
       me.robot_device robotname devicename = .error .nilDereference ∧
       me.robot_device_commands robotname devicename = .error .nilDereference ∧
       me.robot_connections robotname = .error .nilDereference ∧
       me.robot_connection robotname connectionname = .error .nilDereference ∧
       me.executeCommand J robotname devicename commandname req s = .error .nilDereference ∧
       ∃ f : Fault, me.executeRobotCommand J robotname commandname req s = .error f) ∧
      (serve J G me.master Method.GET (Path.robot robotname) req s =
         some (.error .nilDereference) ∧
       serve J G me.master Method.GET (Path.robot_commands robotname) req s =
         some (.error .nilDereference) ∧
       serve J G me.master Method.GET (Path.robot_devices robotname) req s =
         some (.error .nilDereference) ∧
       serve J G me.master Method.GET (Path.robot_device robotname devicename) req s =
         some (.error .nilDereference) ∧
       serve J G me.master Method.GET (Path.robot_device_commands robotname devicename) req s =
         some (.error .nilDereference) ∧
       serve J G me.master Method.GET (Path.robot_connections robotname) req s =
         some (.error .nilDereference) ∧
       serve J G me.master Method.GET (Path.robot_connection robotname connectionname) req s =
         some (.error .nilDereference) ∧
       serve J G me.master Method.GET (Path.command robotname devicename commandname) req s =
         some (.error .nilDereference) ∧
       serve J G me.master Method.POST (Path.command robotname devicename commandname) req s =
         some (.error .nilDereference) ∧
       ∃ f : Fault,
         serve J G me.master Method.POST (Path.robot_command robotname commandname) req s =
           some (.error f)) ∧
      serve J G me.master Method.GET (Path.robot_command robotname commandname) req s =
        some (match G none commandname with
          | .error e => .error e
          | .ok (some h) => h req s
          | .ok none => .ok (httpError "Not Found" 404, s))) ∧
    (Robot.GetDevice (me.master.FindRobot robotname) devicename = .ok none →
      (me.robot_device robotname devicename = .error .nilDereference ∧
       me.robot_device_commands robotname devicename = .error .nilDereference ∧
       me.executeCommand J robotname devicename commandname req s = .error .nilDereference) ∧
      (serve J G me.master Method.GET (Path.robot_device robotname devicename) req s =
         some (.error .nilDereference) ∧
       serve J G me.master Method.GET (Path.robot_device_commands robotname devicename) req s =
         some (.error .nilDereference) ∧
       serve J G me.master Method.GET (Path.command robotname devicename commandname) req s =
         some (.error .nilDereference) ∧
       serve J G me.master Method.POST (Path.command robotname devicename commandname) req s =
         some (.error .nilDereference))) ∧
    (Robot.GetConnection (me.master.FindRobot robotname) connectionname = .ok none →
      me.robot_connection robotname connectionname = .error .nilDereference ∧
      serve J G me.master Method.GET (Path.robot_connection robotname connectionname) req s =
        some (.error .nilDereference)) := by
  have hme := handlers_abort_on_missing me J robotname devicename connectionname commandname
    req s
  have hnew := handlers_abort_on_missing ({ master := me.master } : api σ) J robotname
    devicename connectionname commandname req s
  refine ⟨?_, ?_, ?_⟩
  · intro h
    obtain ⟨h1, h2, h3, h4, h5, h6, h7, h8, f, h9⟩ := hnew.1 h
    refine ⟨hme.1 h, ⟨?_, ?_, ?_, ?_, ?_, ?_, ?_, ?_, ?_, ?_⟩, ?_⟩
    · simp [serve, Api, readOnly, h1, Except.map]
    · simp [serve, Api, readOnly, h2, Except.map]
    · simp [serve, Api, readOnly, h3, Except.map]
    · simp [serve, Api, readOnly, h4, Except.map]
    · simp [serve, Api, readOnly, h5, Except.map]
    · simp [serve, Api, readOnly, h6, Except.map]
    · simp [serve, Api, readOnly, h7, Except.map]
    · simp [serve, Api, h8]
    · simp [serve, Api, h8]
    · exact ⟨f, by simp [serve, Api, h9]⟩
    · simp only [serve, Api, Option.map_some', h, bind, Except.bind, pure, Except.pure]
      cases hG : G none commandname with
      | error e => rfl
      | ok found =>
        cases found with
        | none => rfl
        | some g => rfl
  · intro h
    obtain ⟨h1, h2, h3⟩ := hnew.2.1 h
    refine ⟨hme.2.1 h, ?_, ?_, ?_, ?_⟩
    · simp [serve, Api, readOnly, h1, Except.map]
    · simp [serve, Api, readOnly, h2, Except.map]
    · simp [serve, Api, h3]
    · simp [serve, Api, h3]
  · intro h
    have h1 := hnew.2.2 h
    exact ⟨hme.2.2 h, by simp [serve, Api, readOnly, h1, Except.map]⟩

/-- Witness for C4 amended: the sample master has no robot `ghost`, and its robot
`rover` has no device `wheel`. Show-robot and the device command for them abort, and
GET on a command of `ghost`, no handler being found, is answered 404. -/
theorem missing_entity_aborts_witness :
    sampleApi.master.FindRobot "ghost" = none ∧
    sampleApi.robot "ghost" = .error .nilDereference ∧
    serve sampleJson noHandlers sampleApi.master Method.GET (Path.robot "ghost") ⟨""⟩ [] =
      some (.error .nilDereference) ∧
    serve sampleJson noHandlers sampleApi.master Method.GET
        (Path.robot_command "ghost" "dance") ⟨""⟩ [] =
      some (.ok (httpError "Not Found" 404, [])) ∧
    Robot.GetDevice (sampleApi.master.FindRobot "rover") "wheel" = .ok none ∧
    sampleApi.executeCommand sampleJson "rover" "wheel" "move" ⟨""⟩ [] =
      .error .nilDereference :=
  ⟨rfl,
   ((missing_entity_aborts sampleApi sampleJson noHandlers "ghost" "led" "conn1" "dance"
      ⟨""⟩ []).1 rfl).1.1,
   ((missing_entity_aborts sampleApi sampleJson noHandlers "ghost" "led" "conn1" "dance"
      ⟨""⟩ []).1 rfl).2.1.1,
   ((missing_entity_aborts sampleApi sampleJson noHandlers "ghost" "led" "conn1" "dance"
      ⟨""⟩ []).1 rfl).2.2,
   rfl,
   ((missing_entity_aborts sampleApi sampleJson noHandlers "rover" "wheel" "conn1" "move"
      ⟨""⟩ []).2.1 rfl).1.2.2⟩

/-! ## Views -/

/-- C7: take a device of a robot attached to the master, robot names being unique in
the master and connection names unique in the robot. If the adaptor of the device's
driver is named like a connection `c` of that robot, then `formatJsonDevice` returns a
view whose connection is the view `formatJsonConnection` returns for `c`, with the name,
port and adaptor type of `c`, and whose name, driver and commands are the device's name,
its type and the command list of its driver. -/
theorem formatJsonDevice_connection (a : api σ) (r : Robot σ) (d : device σ) (c : connection)
    (hr : r ∈ a.master.Robots)
    (hrobots : (a.master.Robots.map (fun x => x.Name)).Nodup)
    (hown : d.Robot.Name = r.Name)
    (hc : c ∈ r.connections)
    (hconns : (r.connections.map (fun x => x.Name)).Nodup)
    (hadaptor : d.Driver.Adaptor.Name = c.Name) :
    ∃ jc : jsonConnection,
      a.formatJsonConnection (some c) = .ok jc ∧
      jc.Name = c.Name ∧ jc.Port = c.Port ∧ jc.Adaptor = c.Type_ ∧
      a.formatJsonDevice (some d) =
        .ok { Name := d.Name, Driver := d.Type_, Connection := jc,
              Commands := d.Driver.Commands } := by
  have hfind : a.master.FindRobot d.Robot.Name = some r := by
    rw [hown]
    exact find?_name_of_mem (fun x : Robot σ => x.Name) a.master.Robots r hr hrobots
  have hget : Robot.GetConnection (some r) d.Driver.Adaptor.Name = .ok (some c) := by
    rw [hadaptor]
    simp only [Robot.GetConnection]
    rw [find?_name_of_mem (fun x : connection => x.Name) r.connections c hc hconns]
  refine ⟨{ Name := c.Name, Port := c.Port, Adaptor := c.Type_ }, rfl, rfl, rfl, rfl, ?_⟩
  simp only [api.formatJsonDevice, hfind, hget, api.formatJsonConnection, bind, Except.bind]
  rfl

/-- Witness for C7: the sample device `led` of the robot `rover`, whose driver depends
on the connection `conn1`. -/
theorem formatJsonDevice_connection_witness :
    ∃ jc : jsonConnection,
      sampleApi.formatJsonConnection (some sampleConn1) = .ok jc ∧
      jc.Name = "conn1" ∧ jc.Port = "/dev/ttyACM0" ∧ jc.Adaptor = "FirmataAdaptor" ∧
      sampleApi.formatJsonDevice (some sampleLed) =
        .ok { Name := "led", Driver := "LedDriver", Connection := jc,
              Commands := ["move", "stop"] } :=
  formatJsonDevice_connection sampleApi rover sampleLed sampleConn1
    (List.mem_cons_of_mem _ (List.mem_cons_self _ _)) (by decide) rfl
    (List.mem_cons_self _ _) (by decide) rfl

/-- C10: in every view `formatJsonRobot` returns, the connections are read off the
device views: the list is the list of the connections embedded in the device views, so it
is as long as the list of device views, which has one view per device of the robot, and
its i-th entry is the connection of the i-th device view; a connection view occurs in it
as often as there are device views carrying it. A robot without devices gets the empty
list, whatever connections it owns. The view is returned whenever every device has one,
as in every well-formed graph. -/
theorem formatJsonRobot_connections (a : api σ) (robot : Robot σ) :
    (∀ v : jsonRobot, a.formatJsonRobot (some robot) = .ok v →
      v.Connections = v.Devices.map (fun jd => jd.Connection) ∧
      v.Connections.length = v.Devices.length ∧
      v.Devices.length = robot.devices.length ∧
      (∀ (i : Nat) (h1 : i < v.Connections.length) (h2 : i < v.Devices.length),
        v.Connections.get ⟨i, h1⟩ = (v.Devices.get ⟨i, h2⟩).Connection) ∧
      (∀ (i : Nat) (h1 : i < robot.devices.length) (h2 : i < v.Devices.length),
        a.formatJsonDevice (some (robot.devices.get ⟨i, h1⟩)) = .ok (v.Devices.get ⟨i, h2⟩)) ∧
      (∀ c : jsonConnection,
        v.Connections.count c = v.Devices.countP (fun jd => decide (jd.Connection = c)))) ∧
    (robot.devices = [] →
      a.formatJsonRobot (some robot) =
        .ok { Name := robot.Name, Commands := robot.RobotCommands,
              Connections := [], Devices := [] }) ∧
    ((∀ d ∈ robot.devices, ∃ jd, a.formatJsonDevice (some d) = .ok jd) →
      ∃ v : jsonRobot, a.formatJsonRobot (some robot) = .ok v) ∧
    (a.master.WellFormed → robot ∈ a.master.Robots →
      ∃ v : jsonRobot, a.formatJsonRobot (some robot) = .ok v) := by
  refine ⟨?_, ?_, ?_, ?_⟩
  · intro v hv
    obtain ⟨jds, hjds, rfl⟩ := (formatJsonRobot_ok_iff a robot v).mp hv
    refine ⟨rfl, by simp, ?_, ?_, ?_, ?_⟩
    · exact hjds.length_eq.symm
    · intro i h1 h2
      simp
    · intro i h1 h2
      exact hjds.get h1 h2
    · intro c
      simp only [List.count_eq_countP, List.countP_map]
      congr 1
  · intro hnil
    simp [api.formatJsonRobot, hnil, pure, Except.pure]
  · intro hall
    obtain ⟨jds, hjds⟩ := forall₂_of_forall_ok (fun d => a.formatJsonDevice (some d)) _ hall
    exact ⟨_, (formatJsonRobot_ok_iff a robot _).mpr ⟨jds, hjds, rfl⟩⟩
  · intro hwf hr
    exact formatJsonRobot_returns a hwf robot hr

/-- Witness for C10: the robot `rover` owns two connections and has two devices, both
on `conn1`; its view lists `conn1` twice and `conn2` not at all. -/
theorem formatJsonRobot_connections_witness :
    rover.connections.length = 2 ∧
    sampleApi.formatJsonRobot (some rover) =
      .ok { Name := "rover", Commands := ["ping"],
            Connections := [⟨"conn1", "/dev/ttyACM0", "FirmataAdaptor"⟩,
                            ⟨"conn1", "/dev/ttyACM0", "FirmataAdaptor"⟩],
            Devices := [⟨"led", "LedDriver", ⟨"conn1", "/dev/ttyACM0", "FirmataAdaptor"⟩,
                          ["move", "stop"]⟩,
                        ⟨"button", "ButtonDriver", ⟨"conn1", "/dev/ttyACM0", "FirmataAdaptor"⟩,
                          ["move", "stop"]⟩] } ∧
    ([⟨"conn1", "/dev/ttyACM0", "FirmataAdaptor"⟩,
      ⟨"conn1", "/dev/ttyACM0", "FirmataAdaptor"⟩] : List jsonConnection) =
      ([⟨"led", "LedDriver", ⟨"conn1", "/dev/ttyACM0", "FirmataAdaptor"⟩, ["move", "stop"]⟩,
        ⟨"button", "ButtonDriver", ⟨"conn1", "/dev/ttyACM0", "FirmataAdaptor"⟩,
          ["move", "stop"]⟩] : List jsonDevice).map (fun jd => jd.Connection) :=
  ⟨rfl, rfl,
   ((formatJsonRobot_connections sampleApi rover).1
      { Name := "rover", Commands := ["ping"],
        Connections := [⟨"conn1", "/dev/ttyACM0", "FirmataAdaptor"⟩,
                        ⟨"conn1", "/dev/ttyACM0", "FirmataAdaptor"⟩],
        Devices := [⟨"led", "LedDriver", ⟨"conn1", "/dev/ttyACM0", "FirmataAdaptor"⟩,
                      ["move", "stop"]⟩,
                    ⟨"button", "ButtonDriver", ⟨"conn1", "/dev/ttyACM0", "FirmataAdaptor"⟩,
                      ["move", "stop"]⟩] } rfl).1⟩

/-! ## Listing the robots -/

/-- C8: the handler `robots` answers exactly when every robot of the master has a view,
which is so in every well-formed graph, and its answer is then status 200 with the JSON
encoding of a sequence with as many views as the master has robots, the i-th of them
being the view `formatJsonRobot` returns for the i-th robot of the list. A master
without robots gets the empty sequence. -/
theorem robots_one_view_per_robot (me : api σ) :
    (∀ resp : Response, me.robots = .ok resp ↔
      ∃ views : List jsonRobot,
        resp = { status := 200, contentType := "application/json; charset=utf-8",
                 body := Body.json (Encoded.robots views) } ∧
        me.master.Robots.length = views.length ∧
        ∀ (i : Nat) (h1 : i < me.master.Robots.length) (h2 : i < views.length),
          me.formatJsonRobot (some (me.master.Robots.get ⟨i, h1⟩)) =
            .ok (views.get ⟨i, h2⟩)) ∧
    (me.master.WellFormed → ∃ resp : Response, me.robots = .ok resp) ∧
    (me.master.Robots = [] →
      me.robots = .ok { status := 200, contentType := "application/json; charset=utf-8",
                        body := Body.json (Encoded.robots []) }) := by
  have hwrite : ∀ views : List jsonRobot, writeJson (Encoded.robots views) =
      { status := 200, contentType := "application/json; charset=utf-8",
        body := Body.json (Encoded.robots views) } := fun _ => rfl
  have key : ∀ resp : Response, me.robots = .ok resp ↔
      ∃ views : List jsonRobot,
        List.Forall₂ (fun r v => me.formatJsonRobot (some r) = .ok v) me.master.Robots views ∧
        resp = writeJson (Encoded.robots views) := by
    intro resp
    unfold api.robots
    cases hloop : me.master.Robots.foldlM
        (fun (acc : List jsonRobot) robot => do
          let jr ← me.formatJsonRobot (some robot)
          pure (acc ++ [jr])) [] with
    | error e =>
      simp only [bind, Except.bind]
      constructor
      · intro h; cases h
      · rintro ⟨views, hviews, -⟩
        have h2 := (foldlM_append_ok (fun r => me.formatJsonRobot (some r))
          me.master.Robots [] views).mpr ⟨views, hviews, by simp⟩
        rw [hloop] at h2
        cases h2
    | ok out =>
      simp only [bind, Except.bind, pure, Except.pure]
      obtain ⟨ys, hys, hout⟩ := (foldlM_append_ok (fun r => me.formatJsonRobot (some r))
        me.master.Robots [] out).mp hloop
      simp only [List.nil_append] at hout
      subst hout
      constructor
      · intro h
        cases h
        exact ⟨out, hys, rfl⟩
      · rintro ⟨views, hviews, rfl⟩
        have h2 := (foldlM_append_ok (fun r => me.formatJsonRobot (some r))
          me.master.Robots [] views).mpr ⟨views, hviews, by simp⟩
        rw [hloop] at h2
        cases h2
        rfl
  refine ⟨?_, ?_, ?_⟩
  · intro resp
    rw [key]
    constructor
    · rintro ⟨views, hviews, rfl⟩
      exact ⟨views, hwrite views, hviews.length_eq, fun i h1 h2 => hviews.get h1 h2⟩
    · rintro ⟨views, rfl, hlen, hget⟩
      exact ⟨views, List.forall₂_of_length_eq_of_get hlen hget, (hwrite views).symm⟩
  · intro hwf
    obtain ⟨views, hviews⟩ := forall₂_of_forall_ok (fun r => me.formatJsonRobot (some r))
      me.master.Robots (fun r hr => formatJsonRobot_returns me hwf r hr)
    exact ⟨_, (key _).mpr ⟨views, hviews, rfl⟩⟩
  · intro hnil
    rw [← hwrite]
    simp [api.robots, hnil, bind, Except.bind, pure, Except.pure]

/-- Witness for C8: a master without robots is answered with the empty sequence, and
the answer for the sample master, which is well formed, holds two views, for `hellobot`
and `rover` in this order. -/
theorem robots_one_view_per_robot_witness :
    ({ master := { Robots := [] } } : api (List String)).robots =
      .ok { status := 200, contentType := "application/json; charset=utf-8",
            body := Body.json (Encoded.robots []) } ∧
    (∃ resp : Response, sampleApi.robots = .ok resp) ∧
    sampleApi.robots =
      .ok { status := 200, contentType := "application/json; charset=utf-8",
            body := Body.json (Encoded.robots
              [{ Name := "hellobot", Commands := ["greet"], Connections := [], Devices := [] },
               { Name := "rover", Commands := ["ping"],
                 Connections := [⟨"conn1", "/dev/ttyACM0", "FirmataAdaptor"⟩,
                                 ⟨"conn1", "/dev/ttyACM0", "FirmataAdaptor"⟩],
                 Devices := [⟨"led", "LedDriver", ⟨"conn1", "/dev/ttyACM0", "FirmataAdaptor"⟩,
                               ["move", "stop"]⟩,
                             ⟨"button", "ButtonDriver",
                               ⟨"conn1", "/dev/ttyACM0", "FirmataAdaptor"⟩,
                               ["move", "stop"]⟩] }]) } ∧
    ∃ views : List jsonRobot,
      sampleApi.master.Robots.length = views.length ∧
      ∀ (i : Nat) (h1 : i < sampleApi.master.Robots.length) (h2 : i < views.length),
        sampleApi.formatJsonRobot (some (sampleApi.master.Robots.get ⟨i, h1⟩)) =
          .ok (views.get ⟨i, h2⟩) := by
  refine ⟨(robots_one_view_per_robot { master := { Robots := [] } }).2.2 rfl,
    (robots_one_view_per_robot sampleApi).2.1 sampleMaster_wellFormed, rfl, ?_⟩
  obtain ⟨views, -, hlen, hget⟩ := ((robots_one_view_per_robot sampleApi).1 _).mp rfl
  exact ⟨views, hlen, hget⟩

end Claims

end Gobot
